import Mathlib

/-!
Verification of the `SimpleScheduler` locality-aware assignment engine
(`be/src/statestore/simple-scheduler.h`).

The repository fragment is the class interface: the only method body present
in the source is the inline `HasLocalHost`.  The data model is taken directly
from the header: `host_map_` is a `HostLocalityMap` from IP strings to lists
of `TNetworkAddress` backends, `next_nonlocal_host_entry_` is a round-robin
iterator into that map, and `total_assignments_` / `total_local_assignments_`
are the locality counters.  The bodies of `GetHosts`, `GetHost`,
`GetAllKnownHosts`, `UpdateMembership`, `Init` and `Close` are modelled from
the specification, as noted on each definition.
-/

namespace SimpleScheduler

/-- A host/port pair, as in `gen-cpp/Types_types.h` (`TNetworkAddress`).
Both backends and data locations are of this type (`HostList` is
`vector<TNetworkAddress>`). -/
structure TNetworkAddress where
  hostname : String
  port : Nat
deriving DecidableEq, Repr

/-- One entry of the `HostLocalityMap`: a key (an IP string), the ordered
sequence of backends local to that address, and the per-key round-robin
position used when selecting among several co-located backends. -/
structure MapEntry where
  key : String
  hosts : List TNetworkAddress
  pos : Nat
deriving DecidableEq, Repr

/-- The single assignment-time error: the `HostLocalityMap` is empty. -/
inductive SchedError where
  | NoBackendsAvailable
deriving DecidableEq, Repr

/-- The shared mutable state of the scheduler: the `HostLocalityMap`
(`host_map_`, kept in iteration order), the round-robin cursor
(`next_nonlocal_host_entry_`, as an index into the map), the two locality
counters, and the registration flag used by `Init`/`Close`. -/
structure SchedulerState where
  host_map : List MapEntry
  next_nonlocal : Nat
  total_assignments : Nat
  total_local_assignments : Nat
  registered : Bool
deriving DecidableEq, Repr

/-- Look up the map entry whose key equals the data location's hostname
(`host_map_.find(data_location.hostname)`). -/
def findEntry (d : TNetworkAddress) (s : SchedulerState) : Option MapEntry :=
  s.host_map.find? (fun e => e.key == d.hostname)

/-- From the source (the one inline body in the header): `HasLocalHost`
returns whether `host_map_.find(data_location.hostname)` found an entry —
key presence only, regardless of the entry's sequence. -/
def HasLocalHost (d : TNetworkAddress) (s : SchedulerState) : Bool :=
  (findEntry d s).isSome

/-- Advance the per-key round-robin position of the entries holding key `k`. -/
def bumpPos (m : List MapEntry) (k : String) : List MapEntry :=
  m.map (fun e => if e.key == k then ⟨e.key, e.hosts, e.pos + 1⟩ else e)

/-- Modelled from the spec: the non-local fallback of the assignment engine
(the body of `GetHosts` is not in the source fragment).  The entry currently
under the `RoundRobinCursor` supplies its first host, and the cursor advances
to the next key of the map, wrapping around. -/
def nonlocalAssign (s : SchedulerState) :
    Except SchedError (TNetworkAddress × SchedulerState) :=
  match s.host_map[s.next_nonlocal % s.host_map.length]? with
  | some e =>
    match e.hosts.head? with
    | some h =>
      .ok (h, { s with
        next_nonlocal := (s.next_nonlocal + 1) % s.host_map.length,
        total_assignments := s.total_assignments + 1 })
    | none => .error .NoBackendsAvailable
  | none => .error .NoBackendsAvailable

/-- Modelled from the spec: the per-location assignment step of `GetHost` /
`GetHosts` (their bodies are not in the source fragment).  Fails when the map
is empty; on a key hit with a non-empty sequence selects round-robin within
that key's sequence and counts a local assignment; otherwise falls back to
the map-wide round-robin cursor. -/
def GetHost (d : TNetworkAddress) (s : SchedulerState) :
    Except SchedError (TNetworkAddress × SchedulerState) :=
  if s.host_map.isEmpty then .error .NoBackendsAvailable
  else
    match s.host_map.find? (fun e => e.key == d.hostname) with
    | some e =>
      match e.hosts[e.pos % e.hosts.length]? with
      | some h =>
        .ok (h, { s with
          host_map := bumpPos s.host_map d.hostname,
          total_assignments := s.total_assignments + 1,
          total_local_assignments := s.total_local_assignments + 1 })
      | none => nonlocalAssign s
    | none => nonlocalAssign s

/-- Per-element loop of the batch form: each input location is assigned in
order by the same step as `GetHost`. -/
def getHostsGo (ds : List TNetworkAddress) (s : SchedulerState) :
    Except SchedError (List TNetworkAddress × SchedulerState) :=
  match ds with
  | [] => .ok ([], s)
  | d :: rest =>
    match GetHost d s with
    | .error err => .error err
    | .ok (h, s1) =>
      match getHostsGo rest s1 with
      | .error err => .error err
      | .ok (hs, s2) => .ok (h :: hs, s2)

/-- Modelled from the spec: the batch form `GetHosts` (its body is not in the
source fragment).  The whole call fails when the map is empty — no partial
result sequence — otherwise it assigns one output per input, in order. -/
def GetHosts (ds : List TNetworkAddress) (s : SchedulerState) :
    Except SchedError (List TNetworkAddress × SchedulerState) :=
  if s.host_map.isEmpty then .error .NoBackendsAvailable
  else getHostsGo ds s

/-- Modelled from the spec: `GetAllKnownHosts` (its body is not in the source
fragment) flattens every sequence across every key of the map. -/
def GetAllKnownHosts (s : SchedulerState) : List TNetworkAddress :=
  s.host_map.flatMap (fun e => e.hosts)

/-- One entry of a `MembershipView`: a backend together with the addresses at
which it is considered local. -/
structure ViewEntry where
  host : TNetworkAddress
  addresses : List String
deriving DecidableEq, Repr

/-- Append host `h` to the sequence of key `a`, creating the key at the end
of the map when absent. -/
def addHostToKey : List MapEntry → String → TNetworkAddress → List MapEntry
  | [], a, h => [⟨a, [h], 0⟩]
  | e :: rest, a, h =>
    if e.key == a then ⟨e.key, e.hosts ++ [h], e.pos⟩ :: rest
    else e :: addHostToKey rest a h

/-- Modelled from the spec: build a brand-new `HostLocalityMap` from a
membership view — for each backend in the view, every address at which it is
local becomes a key and the backend is appended to that key's sequence. -/
def buildHostMap (view : List ViewEntry) : List MapEntry :=
  view.foldl (fun m v => v.addresses.foldl (fun m2 a => addHostToKey m2 a v.host) m) []

/-- Modelled from the spec: `UpdateMembership` (its body is not in the source
fragment) atomically replaces the whole map with the one built from the view
and resets the round-robin cursor to the first entry; the counters persist. -/
def UpdateMembership (view : List ViewEntry) (s : SchedulerState) : SchedulerState :=
  { s with host_map := buildHostMap view, next_nonlocal := 0 }

/-- Modelled from the spec: `Init` registers the update callback with the
subscription manager (dynamic mode). -/
def Init (s : SchedulerState) : SchedulerState :=
  { s with registered := true }

/-- Modelled from the spec: `Close` deregisters the callback; it has no error
result and simply clears the registration. -/
def Close (s : SchedulerState) : SchedulerState :=
  { s with registered := false }

/-- The sequence of hosts in key `a` of a map, `[]` when the key is absent. -/
def hostsOfKey (a : String) (m : List MapEntry) : List TNetworkAddress :=
  match m.find? (fun e => e.key == a) with
  | some e => e.hosts
  | none => []

/-- Whether the assignment step for `d` in state `s` takes the local path:
the key is present and its sequence is non-empty. -/
def localHitB (d : TNetworkAddress) (s : SchedulerState) : Bool :=
  match s.host_map.find? (fun e => e.key == d.hostname) with
  | some e => !e.hosts.isEmpty
  | none => false

/-- Run `n + 1` successive `GetHost` calls for the same data location,
threading the state; returns the outcome of the last call. -/
def runGetHost (d : TNetworkAddress) : Nat → SchedulerState →
    Except SchedError (TNetworkAddress × SchedulerState)
  | 0, s => GetHost d s
  | n + 1, s =>
    match GetHost d s with
    | .error err => .error err
    | .ok (_, s1) => runGetHost d n s1

/-- The host returned by the `(n + 1)`-st of a run of successive `GetHost`
calls for the same data location, `none` when that run fails. -/
def runGetHostResult (d : TNetworkAddress) (n : Nat) (s : SchedulerState) :
    Option TNetworkAddress :=
  match runGetHost d n s with
  | .ok (h, _) => some h
  | .error _ => none

/-- Well-formedness maintained by the membership updater: every key of the
map holds a non-empty sequence (keys are only ever created by appending a
backend). -/
def WF (s : SchedulerState) : Prop :=
  ∀ e ∈ s.host_map, e.hosts ≠ []

/-- Replace both locality counters. -/
def setCounters (s : SchedulerState) (t l : Nat) : SchedulerState :=
  { s with total_assignments := t, total_local_assignments := l }

/-- The observable (counter-free) outcome of an assignment call: the chosen
host together with the resulting map and cursor. -/
def obsResult (r : Except SchedError (TNetworkAddress × SchedulerState)) :
    Option (TNetworkAddress × List MapEntry × Nat) :=
  match r with
  | .ok (h, s) => some (h, s.host_map, s.next_nonlocal)
  | .error _ => none

/-- Concrete backend A at address 10.0.0.1. -/
def hostA : TNetworkAddress := ⟨"10.0.0.1", 1001⟩

/-- Concrete backend B at address 10.0.0.2. -/
def hostB : TNetworkAddress := ⟨"10.0.0.2", 1002⟩

/-- Concrete backend C, co-located with B at address 10.0.0.2. -/
def hostC : TNetworkAddress := ⟨"10.0.0.2", 1003⟩

/-- Concrete state with map 10.0.0.1 ↦ [A], 10.0.0.2 ↦ [B, C]. -/
def stateBC : SchedulerState :=
  ⟨[⟨"10.0.0.1", [hostA], 0⟩, ⟨"10.0.0.2", [hostB, hostC], 0⟩], 0, 0, 0, false⟩

/-- Concrete state with map 10.0.0.1 ↦ [A], 10.0.0.2 ↦ [B], cursor at the
first entry. -/
def stateAB : SchedulerState :=
  ⟨[⟨"10.0.0.1", [hostA], 0⟩, ⟨"10.0.0.2", [hostB], 0⟩], 0, 0, 0, false⟩

/-- Concrete empty-map state. -/
def stateEmpty : SchedulerState := ⟨[], 0, 0, 0, false⟩

/-- A data location matching the key 10.0.0.2. -/
def locB : TNetworkAddress := ⟨"10.0.0.2", 0⟩

/-- A data location matching no key of the concrete maps. -/
def locU : TNetworkAddress := ⟨"10.0.0.9", 0⟩

/-- Concrete membership view: A local at 10.0.0.1, B local at 10.0.0.2. -/
def viewAB : List ViewEntry := [⟨hostA, ["10.0.0.1"]⟩, ⟨hostB, ["10.0.0.2"]⟩]

/-- Concrete state with stale map, cursor, and counters, to be replaced by
an update. -/
def stateStale : SchedulerState := ⟨[⟨"10.9.9.9", [hostC], 4⟩], 7, 3, 2, true⟩

/-- The state after one local assignment for 10.0.0.2 in `stateBC`: that
key's position advanced, both counters incremented. -/
def stateBC1 : SchedulerState :=
  ⟨[⟨"10.0.0.1", [hostA], 0⟩, ⟨"10.0.0.2", [hostB, hostC], 1⟩], 0, 1, 1, false⟩

/-- The state with every key's sequence replaced through `f`, keys and
positions untouched; used to state that `HasLocalHost` ignores sequences. -/
def withSeqs (s : SchedulerState) (f : MapEntry → List TNetworkAddress) :
    SchedulerState :=
  { s with host_map := s.host_map.map (fun e => ⟨e.key, f e, e.pos⟩) }

/-- A `find?` hit implies the map is non-empty. -/
theorem host_map_ne_nil_of_find (s : SchedulerState) (p : MapEntry → Bool)
    (e : MapEntry) (hfind : s.host_map.find? p = some e) : s.host_map ≠ [] :=
  List.ne_nil_of_mem (List.mem_of_find?_eq_some hfind)

/-- `bumpPos` keeps the shape of the map: same length. -/
theorem bumpPos_length (m : List MapEntry) (k : String) :
    (bumpPos m k).length = m.length := by
  simp [bumpPos]

/-- `bumpPos` preserves every entry's key and hosts, so it preserves the
non-empty-sequences invariant. -/
theorem WF_bumpPos (m : List MapEntry) (k : String)
    (h : ∀ e ∈ m, e.hosts ≠ []) : ∀ e ∈ bumpPos m k, e.hosts ≠ [] := by
  intro e he
  simp only [bumpPos, List.mem_map] at he
  obtain ⟨x, hx, hfe⟩ := he
  by_cases hk : x.key == k <;> simp [hk] at hfe <;> rw [← hfe] <;> exact h x hx

/-- After `bumpPos m k`, looking up key `k` finds the same entry with its
per-key position advanced by one. -/
theorem find?_bumpPos (m : List MapEntry) (k : String) (e : MapEntry)
    (hfind : m.find? (fun x => x.key == k) = some e) :
    (bumpPos m k).find? (fun x => x.key == k) = some ⟨e.key, e.hosts, e.pos + 1⟩ := by
  unfold bumpPos
  rw [List.find?_map]
  have hp : ((fun x : MapEntry => x.key == k) ∘
      (fun x : MapEntry => if x.key == k then ⟨x.key, x.hosts, x.pos + 1⟩ else x)) =
      (fun x : MapEntry => x.key == k) := by
    funext x
    by_cases hx : x.key == k <;> simp [Function.comp, hx]
  rw [hp, hfind]
  have he := List.find?_some (p := fun x : MapEntry => x.key == k) hfind
  simp only [beq_iff_eq] at he
  simp [he]

/-- `bumpPos` leaves keys untouched, so lookups that missed still miss. -/
theorem find?_bumpPos_none (m : List MapEntry) (k k2 : String)
    (hfind : m.find? (fun x => x.key == k2) = none) :
    (bumpPos m k).find? (fun x => x.key == k2) = none := by
  unfold bumpPos
  rw [List.find?_map]
  have hp : ((fun x : MapEntry => x.key == k2) ∘
      (fun x : MapEntry => if x.key == k then ⟨x.key, x.hosts, x.pos + 1⟩ else x)) =
      (fun x : MapEntry => x.key == k2) := by
    funext x
    by_cases hx : x.key == k <;> simp [Function.comp, hx]
  rw [hp, hfind]
  rfl

/-- On an empty map, the assignment step fails. -/
theorem GetHost_empty (d : TNetworkAddress) (s : SchedulerState)
    (hm : s.host_map = []) : GetHost d s = .error .NoBackendsAvailable := by
  simp [GetHost, hm]

/-- On a key hit with a non-empty sequence, the assignment step selects the
host at the per-key position and advances that position, counting a local
assignment. -/
theorem GetHost_local_step (d : TNetworkAddress) (s : SchedulerState) (e : MapEntry)
    (hfind : s.host_map.find? (fun x => x.key == d.hostname) = some e)
    (hne : e.hosts ≠ []) :
    ∃ h, e.hosts[e.pos % e.hosts.length]? = some h ∧
      GetHost d s = .ok (h, { s with
        host_map := bumpPos s.host_map d.hostname,
        total_assignments := s.total_assignments + 1,
        total_local_assignments := s.total_local_assignments + 1 }) := by
  have hlen : 0 < e.hosts.length := List.length_pos.mpr hne
  have hlt : e.pos % e.hosts.length < e.hosts.length := Nat.mod_lt _ hlen
  have hmapne : s.host_map ≠ [] := host_map_ne_nil_of_find s _ e hfind
  refine ⟨e.hosts[e.pos % e.hosts.length], List.getElem?_eq_getElem hlt, ?_⟩
  simp [GetHost, List.isEmpty_eq_false.mpr hmapne, hfind, List.getElem?_eq_getElem hlt]

/-- Along a run of repeated local lookups for the same address, the
`(n + 1)`-st call returns the host at offset `n` from the key's starting
round-robin position, modulo the number of co-located hosts. -/
theorem runGetHostResult_local (d : TNetworkAddress) (n : Nat) :
    ∀ (s : SchedulerState) (e : MapEntry),
      s.host_map.find? (fun x => x.key == d.hostname) = some e →
      e.hosts ≠ [] →
      runGetHostResult d n s = e.hosts[(e.pos + n) % e.hosts.length]? := by
  induction n with
  | zero =>
    intro s e hfind hne
    obtain ⟨h, hget, hstep⟩ := GetHost_local_step d s e hfind hne
    simp [runGetHostResult, runGetHost, hstep, hget]
  | succ n ih =>
    intro s e hfind hne
    obtain ⟨h, hget, hstep⟩ := GetHost_local_step d s e hfind hne
    have hfind2 := find?_bumpPos s.host_map d.hostname e hfind
    have hrec : runGetHostResult d (n + 1) s =
        runGetHostResult d n { s with
          host_map := bumpPos s.host_map d.hostname,
          total_assignments := s.total_assignments + 1,
          total_local_assignments := s.total_local_assignments + 1 } := by
      simp [runGetHostResult, runGetHost, hstep]
    rw [hrec, ih _ ⟨e.key, e.hosts, e.pos + 1⟩ hfind2 hne]
    have harith : e.pos + 1 + n = e.pos + (n + 1) := by omega
    simp only [harith]

/-- Claim C1: for a state whose map holds the data location's key with a
non-empty sequence of K co-located hosts, repeated `GetHost` calls select
round-robin within that key's sequence — the `(n + 1)`-st call returns the
host at index `(pos + n) mod K`, and results repeat with period K, so all K
local hosts are cycled through before any repeats. -/
theorem claim_C1_local_round_robin (d : TNetworkAddress) (s : SchedulerState)
    (e : MapEntry) (n : Nat)
    (hfind : findEntry d s = some e) (hne : e.hosts ≠ []) :
    runGetHostResult d n s = e.hosts[(e.pos + n) % e.hosts.length]? ∧
    runGetHostResult d (n + e.hosts.length) s = runGetHostResult d n s := by
  have h1 := runGetHostResult_local d n s e hfind hne
  have h2 := runGetHostResult_local d (n + e.hosts.length) s e hfind hne
  refine ⟨h1, ?_⟩
  rw [h1, h2]
  have harith : e.pos + (n + e.hosts.length) = (e.pos + n) + e.hosts.length := by omega
  rw [harith, Nat.add_mod_right]

/-- Concrete instance of claim C1, the spec's scenario: with map
10.0.0.1 ↦ [A], 10.0.0.2 ↦ [B, C], the third `GetHost` for 10.0.0.2
returns B again (after B, C). -/
theorem claim_C1_witness :
    findEntry locB stateBC = some ⟨"10.0.0.2", [hostB, hostC], 0⟩ ∧
    [hostB, hostC] ≠ ([] : List TNetworkAddress) ∧
    runGetHostResult locB 2 stateBC = some hostB :=
  ⟨by decide, by decide, by
    have h := (claim_C1_local_round_robin locB stateBC
      ⟨"10.0.0.2", [hostB, hostC], 0⟩ 2 (by decide) (by decide)).1
    simpa using h⟩

/-- When the key is absent, the assignment step is the non-local fallback. -/
theorem GetHost_no_key (d : TNetworkAddress) (s : SchedulerState)
    (hm : s.host_map ≠ [])
    (hfind : s.host_map.find? (fun x => x.key == d.hostname) = none) :
    GetHost d s = nonlocalAssign s := by
  simp [GetHost, List.isEmpty_eq_false.mpr hm, hfind]

/-- When the key is present but its sequence is empty, the assignment step
also takes the non-local fallback. -/
theorem GetHost_empty_seq (d : TNetworkAddress) (s : SchedulerState) (e : MapEntry)
    (hfind : s.host_map.find? (fun x => x.key == d.hostname) = some e)
    (he : e.hosts = []) :
    GetHost d s = nonlocalAssign s := by
  have hm : s.host_map ≠ [] := host_map_ne_nil_of_find s _ e hfind
  simp [GetHost, List.isEmpty_eq_false.mpr hm, hfind, he]

/-- Explicit outcome of the non-local fallback when the cursor's entry
exists and has a first host: that host is returned, the cursor advances to
the next key (wrapping), and only the total counter is incremented. -/
theorem nonlocalAssign_ok (s : SchedulerState) (e : MapEntry) (h : TNetworkAddress)
    (hget : s.host_map[s.next_nonlocal % s.host_map.length]? = some e)
    (hhead : e.hosts.head? = some h) :
    nonlocalAssign s = .ok (h, { s with
      next_nonlocal := (s.next_nonlocal + 1) % s.host_map.length,
      total_assignments := s.total_assignments + 1 }) := by
  simp [nonlocalAssign, hget, hhead]

/-- Along a run of repeated lookups for an address with no key in the map,
the `(n + 1)`-st call returns the first host of the key at offset `n` from
the starting cursor, modulo the number of keys. -/
theorem runGetHostResult_nonlocal (d : TNetworkAddress) (n : Nat) :
    ∀ s : SchedulerState, WF s → s.host_map ≠ [] →
      s.host_map.find? (fun x => x.key == d.hostname) = none →
      runGetHostResult d n s =
        (s.host_map[(s.next_nonlocal + n) % s.host_map.length]?).bind
          (fun e => e.hosts.head?) := by
  induction n with
  | zero =>
    intro s hwf hm hfind
    have hlen : 0 < s.host_map.length := List.length_pos.mpr hm
    have hlt : s.next_nonlocal % s.host_map.length < s.host_map.length :=
      Nat.mod_lt _ hlen
    have hget : s.host_map[s.next_nonlocal % s.host_map.length]? =
        some s.host_map[s.next_nonlocal % s.host_map.length] :=
      List.getElem?_eq_getElem hlt
    have hne := hwf _ (List.getElem_mem hlt)
    obtain ⟨h, hhead⟩ : ∃ h,
        (s.host_map[s.next_nonlocal % s.host_map.length]).hosts.head? = some h := by
      cases hh : (s.host_map[s.next_nonlocal % s.host_map.length]).hosts with
      | nil => exact absurd hh hne
      | cons a t => exact ⟨a, rfl⟩
    have hstep := nonlocalAssign_ok s _ h hget hhead
    rw [show s.next_nonlocal + 0 = s.next_nonlocal from rfl]
    simp [runGetHostResult, runGetHost, GetHost_no_key d s hm hfind, hstep, hget, hhead]
  | succ n ih =>
    intro s hwf hm hfind
    have hlen : 0 < s.host_map.length := List.length_pos.mpr hm
    have hlt : s.next_nonlocal % s.host_map.length < s.host_map.length :=
      Nat.mod_lt _ hlen
    have hget : s.host_map[s.next_nonlocal % s.host_map.length]? =
        some s.host_map[s.next_nonlocal % s.host_map.length] :=
      List.getElem?_eq_getElem hlt
    have hne := hwf _ (List.getElem_mem hlt)
    obtain ⟨h, hhead⟩ : ∃ h,
        (s.host_map[s.next_nonlocal % s.host_map.length]).hosts.head? = some h := by
      cases hh : (s.host_map[s.next_nonlocal % s.host_map.length]).hosts with
      | nil => exact absurd hh hne
      | cons a t => exact ⟨a, rfl⟩
    have hstep := nonlocalAssign_ok s _ h hget hhead
    have hrec : runGetHostResult d (n + 1) s =
        runGetHostResult d n { s with
          next_nonlocal := (s.next_nonlocal + 1) % s.host_map.length,
          total_assignments := s.total_assignments + 1 } := by
      simp [runGetHostResult, runGetHost, GetHost_no_key d s hm hfind, hstep]
    have h2 := ih { s with
      next_nonlocal := (s.next_nonlocal + 1) % s.host_map.length,
      total_assignments := s.total_assignments + 1 } hwf hm hfind
    rw [hrec, h2]
    dsimp only
    rw [Nat.mod_add_mod]
    have harith : s.next_nonlocal + 1 + n = s.next_nonlocal + (n + 1) := by omega
    rw [harith]

/-- Claim C2: for a non-empty map (with every key holding at least one
host) and a data location whose key is absent, repeated `GetHost` calls
round-robin across the whole map — the `(n + 1)`-st call returns the first
host of the key at index `(cursor + n) mod K` over the K keys, and results
repeat with period K, so the calls cycle through all keys in order before
repeating. -/
theorem claim_C2_nonlocal_round_robin (d : TNetworkAddress) (s : SchedulerState)
    (n : Nat) (hwf : WF s) (hm : s.host_map ≠ []) (hfind : findEntry d s = none) :
    runGetHostResult d n s =
      (s.host_map[(s.next_nonlocal + n) % s.host_map.length]?).bind
        (fun e => e.hosts.head?) ∧
    runGetHostResult d (n + s.host_map.length) s = runGetHostResult d n s := by
  have h1 := runGetHostResult_nonlocal d n s hwf hm hfind
  have h2 := runGetHostResult_nonlocal d (n + s.host_map.length) s hwf hm hfind
  refine ⟨h1, ?_⟩
  rw [h1, h2]
  have harith : s.next_nonlocal + (n + s.host_map.length) =
      (s.next_nonlocal + n) + s.host_map.length := by omega
  rw [harith, Nat.add_mod_right]

/-- Concrete instance of claim C2, the spec's scenario: with map
10.0.0.1 ↦ [A], 10.0.0.2 ↦ [B] and the cursor at the first key, the third
`GetHost` for unknown 10.0.0.9 returns A again (after A, B). -/
theorem claim_C2_witness :
    WF stateAB ∧ stateAB.host_map ≠ [] ∧ findEntry locU stateAB = none ∧
    runGetHostResult locU 2 stateAB = some hostA :=
  ⟨by unfold WF; decide, by decide, by decide, by
    have h := (claim_C2_nonlocal_round_robin locU stateAB 2
      (by unfold WF; decide) (by decide) (by decide)).1
    simpa using h⟩

/-- Inverting a successful non-local fallback: the map is untouched and
only the total counter grows. -/
theorem nonlocalAssign_ok_inv (s : SchedulerState) (h : TNetworkAddress)
    (s1 : SchedulerState) (hok : nonlocalAssign s = .ok (h, s1)) :
    s1.host_map = s.host_map ∧
    s1.total_assignments = s.total_assignments + 1 ∧
    s1.total_local_assignments = s.total_local_assignments ∧
    s1.registered = s.registered := by
  unfold nonlocalAssign at hok
  split at hok
  · split at hok
    · simp only [Except.ok.injEq, Prod.mk.injEq] at hok
      obtain ⟨rfl, rfl⟩ := hok
      simp
    · simp at hok
  · simp at hok

/-- A successful assignment step keeps the map either unchanged or
position-bumped: in both cases its entries' keys and hosts survive, and the
total counter grows by one while the local counter grows by at most one. -/
theorem GetHost_ok_inv (d : TNetworkAddress) (s : SchedulerState)
    (h : TNetworkAddress) (s1 : SchedulerState) (hok : GetHost d s = .ok (h, s1)) :
    (s1.host_map = s.host_map ∨ s1.host_map = bumpPos s.host_map d.hostname) ∧
    s1.total_assignments = s.total_assignments + 1 ∧
    (s1.total_local_assignments = s.total_local_assignments + 1 ∨
      s1.total_local_assignments = s.total_local_assignments) := by
  by_cases hm : s.host_map = []
  · rw [GetHost_empty d s hm] at hok
    simp at hok
  cases hfind : s.host_map.find? (fun x => x.key == d.hostname) with
  | none =>
    rw [GetHost_no_key d s hm hfind] at hok
    obtain ⟨h1, h2, h3, _⟩ := nonlocalAssign_ok_inv s h s1 hok
    exact ⟨Or.inl h1, h2, Or.inr h3⟩
  | some e =>
    by_cases he : e.hosts = []
    · rw [GetHost_empty_seq d s e hfind he] at hok
      obtain ⟨h1, h2, h3, _⟩ := nonlocalAssign_ok_inv s h s1 hok
      exact ⟨Or.inl h1, h2, Or.inr h3⟩
    · obtain ⟨h2, hget, hstep⟩ := GetHost_local_step d s e hfind he
      rw [hstep] at hok
      simp only [Except.ok.injEq, Prod.mk.injEq] at hok
      obtain ⟨rfl, rfl⟩ := hok
      exact ⟨Or.inr rfl, rfl, Or.inl rfl⟩

/-- A successful assignment step preserves the map's length and the
non-empty-sequences invariant. -/
theorem GetHost_preserves (d : TNetworkAddress) (s : SchedulerState)
    (h : TNetworkAddress) (s1 : SchedulerState) (hok : GetHost d s = .ok (h, s1)) :
    s1.host_map.length = s.host_map.length ∧ (WF s → WF s1) := by
  obtain ⟨hmap, _, _⟩ := GetHost_ok_inv d s h s1 hok
  cases hmap with
  | inl heq => rw [heq]; exact ⟨rfl, fun hwf => by rw [WF, heq]; exact hwf⟩
  | inr heq =>
    refine ⟨by rw [heq, bumpPos_length], fun hwf => ?_⟩
    rw [WF, heq]
    exact WF_bumpPos s.host_map d.hostname hwf

/-- On a well-formed non-empty map, the assignment step always succeeds. -/
theorem GetHost_ok_of_WF (d : TNetworkAddress) (s : SchedulerState)
    (hwf : WF s) (hm : s.host_map ≠ []) :
    ∃ h s1, GetHost d s = .ok (h, s1) := by
  cases hfind : s.host_map.find? (fun x => x.key == d.hostname) with
  | some e =>
    have hne : e.hosts ≠ [] := hwf e (List.mem_of_find?_eq_some hfind)
    obtain ⟨h, _, hstep⟩ := GetHost_local_step d s e hfind hne
    exact ⟨h, _, hstep⟩
  | none =>
    have hlen : 0 < s.host_map.length := List.length_pos.mpr hm
    have hlt : s.next_nonlocal % s.host_map.length < s.host_map.length :=
      Nat.mod_lt _ hlen
    have hget : s.host_map[s.next_nonlocal % s.host_map.length]? =
        some s.host_map[s.next_nonlocal % s.host_map.length] :=
      List.getElem?_eq_getElem hlt
    have hne := hwf _ (List.getElem_mem hlt)
    obtain ⟨h, hhead⟩ : ∃ h,
        (s.host_map[s.next_nonlocal % s.host_map.length]).hosts.head? = some h := by
      cases hh : (s.host_map[s.next_nonlocal % s.host_map.length]).hosts with
      | nil => exact absurd hh hne
      | cons a t => exact ⟨a, rfl⟩
    have hna := nonlocalAssign_ok s _ h hget hhead
    exact ⟨h, _, by rw [GetHost_no_key d s hm hfind]; exact hna⟩

/-- On a well-formed non-empty map, the whole per-element loop succeeds. -/
theorem getHostsGo_ok (ds : List TNetworkAddress) :
    ∀ s : SchedulerState, WF s → s.host_map ≠ [] →
      ∃ hs s2, getHostsGo ds s = .ok (hs, s2) := by
  induction ds with
  | nil => intro s _ _; exact ⟨[], s, rfl⟩
  | cons d rest ih =>
    intro s hwf hm
    obtain ⟨h, s1, hok⟩ := GetHost_ok_of_WF d s hwf hm
    obtain ⟨hlen, hwf1⟩ := GetHost_preserves d s h s1 hok
    have hm1 : s1.host_map ≠ [] := by
      intro hnil
      rw [hnil] at hlen
      exact hm (List.eq_nil_of_length_eq_zero hlen.symm)
    obtain ⟨hs, s2, hgo⟩ := ih s1 (hwf1 hwf) hm1
    exact ⟨h :: hs, s2, by simp [getHostsGo, hok, hgo]⟩

/-- Claim C5: with an empty map, both the batch and the single assignment
call fail with NoBackendsAvailable and return no partial results; and this
is the only assignment-time error — on a non-empty map whose keys all hold
at least one host, the batch call succeeds. -/
theorem claim_C5_empty_map_error (ds : List TNetworkAddress) (d : TNetworkAddress)
    (s : SchedulerState) :
    (s.host_map = [] →
      GetHosts ds s = .error .NoBackendsAvailable ∧
      GetHost d s = .error .NoBackendsAvailable) ∧
    (WF s → s.host_map ≠ [] → ∃ r, GetHosts ds s = .ok r) := by
  constructor
  · intro hm
    exact ⟨by simp [GetHosts, hm], GetHost_empty d s hm⟩
  · intro hwf hm
    obtain ⟨hs, s2, hgo⟩ := getHostsGo_ok ds s hwf hm
    exact ⟨(hs, s2), by simp [GetHosts, List.isEmpty_eq_false.mpr hm, hgo]⟩

/-- Concrete instance of claim C5: on the empty map both calls fail, and on
the concrete two-key map the batch call succeeds. -/
theorem claim_C5_witness :
    stateEmpty.host_map = [] ∧
    (GetHosts [locU] stateEmpty = .error .NoBackendsAvailable ∧
      GetHost locU stateEmpty = .error .NoBackendsAvailable) ∧
    (∃ r, GetHosts [locU] stateAB = .ok r) :=
  ⟨rfl, (claim_C5_empty_map_error [locU] locU stateEmpty).1 rfl,
    (claim_C5_empty_map_error [locU] locU stateAB).2 (by unfold WF; decide) (by decide)⟩

/-- A successful assignment step never empties the map. -/
theorem GetHost_map_ne_nil (d : TNetworkAddress) (s : SchedulerState)
    (h : TNetworkAddress) (s1 : SchedulerState) (hok : GetHost d s = .ok (h, s1))
    (hm : s.host_map ≠ []) : s1.host_map ≠ [] := by
  obtain ⟨hlen, _⟩ := GetHost_preserves d s h s1 hok
  intro hnil
  rw [hnil] at hlen
  exact hm (List.eq_nil_of_length_eq_zero hlen.symm)

/-- Claim C6: the single form is the batch form at a singleton input, and
the batch form decomposes per element — `GetHosts` on `d :: ds` is exactly
one `GetHost` step for `d` followed by the batch on `ds` from the updated
state, with identical error behaviour, ordering, and side effects. -/
theorem claim_C6_single_batch_equiv (d : TNetworkAddress)
    (ds : List TNetworkAddress) (s : SchedulerState) :
    GetHosts [d] s = (GetHost d s).map (fun p => ([p.1], p.2)) ∧
    GetHosts (d :: ds) s =
      (GetHost d s).bind (fun p =>
        (GetHosts ds p.2).map (fun q => (p.1 :: q.1, q.2))) := by
  by_cases hm : s.host_map = []
  · rw [GetHost_empty d s hm]
    constructor <;> simp [GetHosts, hm, Except.map, Except.bind]
  · have hne := List.isEmpty_eq_false.mpr hm
    constructor
    · rw [GetHosts, hne]
      cases hg : GetHost d s with
      | error err => simp [getHostsGo, hg, Except.map]
      | ok p => simp [getHostsGo, hg, Except.map]
    · rw [GetHosts, hne]
      cases hg : GetHost d s with
      | error err => simp [getHostsGo, hg, Except.bind]
      | ok p =>
        obtain ⟨h, s1⟩ := p
        have hm1 : s1.host_map ≠ [] := GetHost_map_ne_nil d s h s1 hg hm
        have hne1 := List.isEmpty_eq_false.mpr hm1
        rw [show getHostsGo (d :: ds) s =
            match GetHost d s with
            | .error err => .error err
            | .ok (h, s1) =>
              match getHostsGo ds s1 with
              | .error err => .error err
              | .ok (hs, s2) => .ok (h :: hs, s2) from rfl, hg]
        rw [show (Except.ok (h, s1)).bind (fun p =>
            (GetHosts ds p.2).map (fun q => (p.1 :: q.1, q.2))) =
            (GetHosts ds s1).map (fun q => (h :: q.1, q.2)) from rfl]
        rw [GetHosts, hne1]
        cases hgo : getHostsGo ds s1 with
        | error err => simp [hgo, Except.map]
        | ok q => obtain ⟨hs, s2⟩ := q; simp [hgo, Except.map]

/-- Concrete instance of claim C6 at a singleton and a two-element batch. -/
theorem claim_C6_witness :
    GetHosts [locB] stateBC = (GetHost locB stateBC).map (fun p => ([p.1], p.2)) ∧
    GetHosts (locB :: [locU]) stateBC =
      (GetHost locB stateBC).bind (fun p =>
        (GetHosts [locU] p.2).map (fun q => (p.1 :: q.1, q.2))) :=
  claim_C6_single_batch_equiv locB [locU] stateBC

/-- Claim C7: `HasLocalHost` is true exactly when the location's
host-address key is present in the map, and it is invariant under replacing
every key's sequence (in particular under emptying them) — key presence
only, never sequence non-emptiness. -/
theorem claim_C7_has_local_host (d : TNetworkAddress) (s : SchedulerState)
    (f : MapEntry → List TNetworkAddress) :
    (HasLocalHost d s = true ↔ ∃ e ∈ s.host_map, e.key = d.hostname) ∧
    HasLocalHost d (withSeqs s f) = HasLocalHost d s := by
  constructor
  · rw [HasLocalHost, findEntry, List.find?_isSome]
    constructor
    · rintro ⟨e, he, hk⟩
      exact ⟨e, he, by simpa using hk⟩
    · rintro ⟨e, he, hk⟩
      exact ⟨e, he, by simpa using hk⟩
  · rw [HasLocalHost, HasLocalHost, findEntry, findEntry, withSeqs]
    dsimp only
    rw [List.find?_map]
    have hp : ((fun x : MapEntry => x.key == d.hostname) ∘
        (fun e : MapEntry => ⟨e.key, f e, e.pos⟩)) =
        (fun x : MapEntry => x.key == d.hostname) := rfl
    rw [hp, Option.isSome_map']

/-- Concrete instance of claim C7: a present key is reported even when its
sequence has been emptied. -/
theorem claim_C7_witness :
    HasLocalHost locB (withSeqs stateBC (fun _ => [])) = HasLocalHost locB stateBC :=
  (claim_C7_has_local_host locB stateBC (fun _ => [])).2

/-- Claim C9: `Close` is idempotent — closing twice equals closing once,
both on any state and on a freshly registered one, it always leaves the
scheduler deregistered, and it is a total operation with no error result. -/
theorem claim_C9_close_idempotent (s : SchedulerState) :
    Close (Close s) = Close s ∧
    Close (Close (Init s)) = Close (Init s) ∧
    (Close s).registered = false ∧
    Close { s with registered := false } = { s with registered := false } := by
  exact ⟨rfl, rfl, rfl, rfl⟩

/-- Concrete instance of claim C9 on a registered state. -/
theorem claim_C9_witness :
    Close (Close stateStale) = Close stateStale ∧
    Close (Close (Init stateStale)) = Close (Init stateStale) ∧
    (Close stateStale).registered = false ∧
    Close { stateStale with registered := false } =
      { stateStale with registered := false } :=
  claim_C9_close_idempotent stateStale

/-- Claim C10: `GetAllKnownHosts` has no error result — it returns exactly
the flattening of all sequences across all keys, in particular the empty
list on an empty map where `GetHosts` instead fails with
NoBackendsAvailable. -/
theorem claim_C10_get_all_known_hosts (s : SchedulerState)
    (ds : List TNetworkAddress) (h : TNetworkAddress) :
    (h ∈ GetAllKnownHosts s ↔ ∃ e ∈ s.host_map, h ∈ e.hosts) ∧
    (s.host_map = [] →
      GetAllKnownHosts s = [] ∧ GetHosts ds s = .error .NoBackendsAvailable) := by
  constructor
  · simp [GetAllKnownHosts]
  · intro hm
    exact ⟨by simp [GetAllKnownHosts, hm], by simp [GetHosts, hm]⟩

/-- Concrete instance of claim C10 on the empty map and on a populated map. -/
theorem claim_C10_witness :
    stateEmpty.host_map = [] ∧
    (GetAllKnownHosts stateEmpty = [] ∧
      GetHosts [locU] stateEmpty = .error .NoBackendsAvailable) ∧
    (hostB ∈ GetAllKnownHosts stateBC ↔ ∃ e ∈ stateBC.host_map, hostB ∈ e.hosts) :=
  ⟨rfl, (claim_C10_get_all_known_hosts stateEmpty [locU] hostB).2 rfl,
    (claim_C10_get_all_known_hosts stateBC [locU] hostB).1⟩

/-- Appending one host to one key changes exactly that key's sequence, by
appending the host. -/
theorem hostsOfKey_addHostToKey (m : List MapEntry) (a a2 : String)
    (h h2 : TNetworkAddress) :
    h2 ∈ hostsOfKey a2 (addHostToKey m a h) ↔
      h2 ∈ hostsOfKey a2 m ∨ (a2 = a ∧ h2 = h) := by
  induction m with
  | nil =>
    rw [show addHostToKey [] a h = [⟨a, [h], 0⟩] from rfl]
    by_cases ha : a = a2
    · subst ha
      simp [hostsOfKey, List.find?]
    · have hb : (a == a2) = false := beq_eq_false_iff_ne.mpr ha
      simp only [hostsOfKey, List.find?, hb]
      simp only [List.not_mem_nil, false_iff, not_or]
      constructor
      · simp
      · exact fun hx => absurd hx.1.symm ha
  | cons e rest ih =>
    by_cases hek : e.key = a
    · rw [show addHostToKey (e :: rest) a h =
          ⟨e.key, e.hosts ++ [h], e.pos⟩ :: rest from by simp [addHostToKey, hek]]
      by_cases hk2 : e.key = a2
      · rw [hostsOfKey, hostsOfKey]
        rw [List.find?_cons_of_pos _ (by simpa using hk2),
          List.find?_cons_of_pos _ (by simpa using hk2)]
        subst hek
        simp [eq_comm, hk2]
      · rw [hostsOfKey, hostsOfKey]
        rw [List.find?_cons_of_neg _ (by simpa using hk2),
          List.find?_cons_of_neg _ (by simpa using hk2)]
        have ha2 : ¬(a2 = a) := fun hx => hk2 (hek.trans hx.symm)
        simp [hostsOfKey, ha2]
    · rw [show addHostToKey (e :: rest) a h = e :: addHostToKey rest a h from by
          simp [addHostToKey, hek]]
      by_cases hk2 : e.key = a2
      · rw [hostsOfKey, hostsOfKey]
        rw [List.find?_cons_of_pos _ (by simpa using hk2),
          List.find?_cons_of_pos _ (by simpa using hk2)]
        have ha2 : ¬(a2 = a) := fun hx => hek (hk2.trans hx)
        simp [ha2]
      · rw [hostsOfKey, hostsOfKey]
        rw [List.find?_cons_of_neg _ (by simpa using hk2),
          List.find?_cons_of_neg _ (by simpa using hk2)]
        exact ih

/-- Folding one view entry's addresses appends its host to exactly those
keys. -/
theorem hostsOfKey_foldl_addresses (as : List String) (h : TNetworkAddress)
    (a2 : String) (h2 : TNetworkAddress) :
    ∀ m, h2 ∈ hostsOfKey a2 (as.foldl (fun m2 a => addHostToKey m2 a h) m) ↔
      h2 ∈ hostsOfKey a2 m ∨ (a2 ∈ as ∧ h2 = h) := by
  induction as with
  | nil => intro m; simp
  | cons a as ih =>
    intro m
    rw [List.foldl_cons, ih, hostsOfKey_addHostToKey]
    simp only [List.mem_cons]
    tauto

/-- Folding a whole view into a map adds exactly the view's host/address
pairs. -/
theorem hostsOfKey_foldl_view (v : List ViewEntry) (a2 : String)
    (h2 : TNetworkAddress) :
    ∀ m, h2 ∈ hostsOfKey a2 (v.foldl (fun m ve =>
        ve.addresses.foldl (fun m2 a => addHostToKey m2 a ve.host) m) m) ↔
      h2 ∈ hostsOfKey a2 m ∨ ∃ ve ∈ v, ve.host = h2 ∧ a2 ∈ ve.addresses := by
  induction v with
  | nil => intro m; simp
  | cons ve v ih =>
    intro m
    rw [List.foldl_cons, ih, hostsOfKey_foldl_addresses]
    simp only [List.mem_cons]
    constructor
    · rintro ((hx | ⟨hx, rfl⟩) | ⟨w, hw, rfl, hx⟩)
      · exact Or.inl hx
      · exact Or.inr ⟨ve, Or.inl rfl, rfl, hx⟩
      · exact Or.inr ⟨w, Or.inr hw, rfl, hx⟩
    · rintro (hx | ⟨w, (rfl | hw), rfl, hx⟩)
      · exact Or.inl (Or.inl hx)
      · exact Or.inl (Or.inr ⟨hx, rfl⟩)
      · exact Or.inr ⟨w, hw, rfl, hx⟩

/-- The rebuilt map holds exactly the view's host/address pairs: a host sits
in key `a` iff some view entry carries that host with address `a`. -/
theorem hostsOfKey_buildHostMap (v : List ViewEntry) (a2 : String)
    (h2 : TNetworkAddress) :
    h2 ∈ hostsOfKey a2 (buildHostMap v) ↔
      ∃ ve ∈ v, ve.host = h2 ∧ a2 ∈ ve.addresses := by
  rw [buildHostMap, hostsOfKey_foldl_view]
  simp [hostsOfKey, List.find?]

/-- Claim C3: `UpdateMembership` replaces the whole map with the one built
from the view — each host of the view appended under each address at which
it is local, the old map discarded entirely (the result does not depend on
the previous state's map) — and resets the round-robin cursor to the first
entry, so the next non-local assignment is served by the first key of the
new map. -/
theorem claim_C3_update_membership (v : List ViewEntry) (s s2 : SchedulerState)
    (d : TNetworkAddress) :
    (UpdateMembership v s).host_map = buildHostMap v ∧
    (UpdateMembership v s).next_nonlocal = 0 ∧
    (UpdateMembership v s).host_map = (UpdateMembership v s2).host_map ∧
    (∀ h a, h ∈ hostsOfKey a (UpdateMembership v s).host_map ↔
      ∃ ve ∈ v, ve.host = h ∧ a ∈ ve.addresses) ∧
    (buildHostMap v ≠ [] → findEntry d (UpdateMembership v s) = none →
      runGetHostResult d 0 (UpdateMembership v s) =
        (buildHostMap v).head?.bind (fun e => e.hosts.head?)) := by
  refine ⟨rfl, rfl, rfl, fun h a => hostsOfKey_buildHostMap v a h, ?_⟩
  intro hm hfind
  have hstep := GetHost_no_key d (UpdateMembership v s) hm hfind
  rw [runGetHostResult, runGetHost, hstep, nonlocalAssign]
  have hcur : (UpdateMembership v s).next_nonlocal = 0 := rfl
  rw [hcur, Nat.zero_mod]
  have hmap : (UpdateMembership v s).host_map = buildHostMap v := rfl
  rw [hmap, ← List.head?_eq_getElem?]
  cases hh : (buildHostMap v).head? with
  | none => simp
  | some e =>
    cases hhh : e.hosts.head? with
    | none => simp [hhh]
    | some h => simp [hhh]

/-- Concrete instance of claim C3: updating a stale one-key state with a
two-host view installs exactly the new map, and the next non-local lookup
is served by the new map's first key. -/
theorem claim_C3_witness :
    buildHostMap viewAB ≠ [] ∧
    findEntry locU (UpdateMembership viewAB stateStale) = none ∧
    runGetHostResult locU 0 (UpdateMembership viewAB stateStale) =
      (buildHostMap viewAB).head?.bind (fun e => e.hosts.head?) :=
  ⟨by decide, by decide,
    (claim_C3_update_membership viewAB stateStale stateStale locU).2.2.2.2
      (by decide) (by decide)⟩

/-- Unfolding the per-element loop when the head assignment fails. -/
theorem getHostsGo_cons_err (d : TNetworkAddress) (rest : List TNetworkAddress)
    (s : SchedulerState) (err : SchedError) (hg : GetHost d s = .error err) :
    getHostsGo (d :: rest) s = .error err := by
  rw [show getHostsGo (d :: rest) s =
      match GetHost d s with
      | .error err => .error err
      | .ok (h, s1) =>
        match getHostsGo rest s1 with
        | .error err => .error err
        | .ok (hs, s2) => .ok (h :: hs, s2) from rfl, hg]

/-- Unfolding the per-element loop when the head assignment succeeds. -/
theorem getHostsGo_cons_ok (d : TNetworkAddress) (rest : List TNetworkAddress)
    (s : SchedulerState) (h : TNetworkAddress) (s1 : SchedulerState)
    (hg : GetHost d s = .ok (h, s1)) :
    getHostsGo (d :: rest) s =
      match getHostsGo rest s1 with
      | .error err => .error err
      | .ok (hs, s2) => .ok (h :: hs, s2) := by
  rw [show getHostsGo (d :: rest) s =
      match GetHost d s with
      | .error err => .error err
      | .ok (h, s1) =>
        match getHostsGo rest s1 with
        | .error err => .error err
        | .ok (hs, s2) => .ok (h :: hs, s2) from rfl, hg]

/-- Counters never decrease across the per-element loop. -/
theorem getHostsGo_counters (ds : List TNetworkAddress) :
    ∀ s hs s2, getHostsGo ds s = .ok (hs, s2) →
      s.total_assignments ≤ s2.total_assignments ∧
      s.total_local_assignments ≤ s2.total_local_assignments := by
  induction ds with
  | nil =>
    intro s hs s2 hok
    simp only [getHostsGo, Except.ok.injEq, Prod.mk.injEq] at hok
    obtain ⟨rfl, rfl⟩ := hok
    exact ⟨le_refl _, le_refl _⟩
  | cons d rest ih =>
    intro s hs s2 hok
    cases hg : GetHost d s with
    | error err => rw [getHostsGo_cons_err d rest s err hg] at hok; simp at hok
    | ok p =>
      obtain ⟨h, s1⟩ := p
      rw [getHostsGo_cons_ok d rest s h s1 hg] at hok
      cases hgo : getHostsGo rest s1 with
      | error err => rw [hgo] at hok; simp at hok
      | ok q =>
        obtain ⟨hs1, s21⟩ := q
        rw [hgo] at hok
        simp only [Except.ok.injEq, Prod.mk.injEq] at hok
        obtain ⟨rfl, rfl⟩ := hok
        obtain ⟨_, h2, h3⟩ := GetHost_ok_inv d s h s1 hg
        obtain ⟨m1, m2⟩ := ih s1 hs1 s21 hgo
        cases h3 with
        | inl hx => constructor <;> omega
        | inr hx => constructor <;> omega

/-- The non-local fallback reads neither counter: its observable outcome is
unchanged when the counters are replaced. -/
theorem nonlocalAssign_obs_setCounters (s : SchedulerState) (t l : Nat) :
    obsResult (nonlocalAssign (setCounters s t l)) = obsResult (nonlocalAssign s) := by
  rw [nonlocalAssign, nonlocalAssign]
  have h1 : (setCounters s t l).host_map = s.host_map := rfl
  have h2 : (setCounters s t l).next_nonlocal = s.next_nonlocal := rfl
  rw [h1, h2]
  cases hget : s.host_map[s.next_nonlocal % s.host_map.length]? with
  | none => rfl
  | some e =>
    cases hh : e.hosts.head? with
    | none => simp [obsResult, hh]
    | some h => simp [obsResult, hh]

/-- Claim C8: every successful assignment increments the total counter by
one and the local counter exactly when the local path applied; the counters
never decrease across a batch; and the counters never affect the assignment
result — the chosen host, map and cursor are unchanged when the counters
are replaced. -/
theorem claim_C8_counters (d : TNetworkAddress) (ds : List TNetworkAddress)
    (s : SchedulerState) (t l : Nat) :
    (∀ h s1, GetHost d s = .ok (h, s1) →
      s1.total_assignments = s.total_assignments + 1 ∧
      (s1.total_local_assignments = s.total_local_assignments + 1 ↔
        localHitB d s = true) ∧
      (localHitB d s = false →
        s1.total_local_assignments = s.total_local_assignments)) ∧
    (∀ hs s2, GetHosts ds s = .ok (hs, s2) →
      s.total_assignments ≤ s2.total_assignments ∧
      s.total_local_assignments ≤ s2.total_local_assignments) ∧
    obsResult (GetHost d (setCounters s t l)) = obsResult (GetHost d s) := by
  refine ⟨?_, ?_, ?_⟩
  · intro h s1 hok
    by_cases hm : s.host_map = []
    · rw [GetHost_empty d s hm] at hok
      simp at hok
    cases hfind : s.host_map.find? (fun x => x.key == d.hostname) with
    | some e =>
      by_cases he : e.hosts = []
      · rw [GetHost_empty_seq d s e hfind he] at hok
        obtain ⟨_, h2, h3, _⟩ := nonlocalAssign_ok_inv s h s1 hok
        have hl : localHitB d s = false := by simp [localHitB, hfind, he]
        refine ⟨h2, ?_, fun _ => h3⟩
        rw [h3, hl]
        simp
      · obtain ⟨h0, hget, hstep⟩ := GetHost_local_step d s e hfind he
        rw [hstep] at hok
        simp only [Except.ok.injEq, Prod.mk.injEq] at hok
        obtain ⟨rfl, rfl⟩ := hok
        have hl : localHitB d s = true := by simp [localHitB, hfind, he]
        simp [hl]
    | none =>
      rw [GetHost_no_key d s hm hfind] at hok
      obtain ⟨_, h2, h3, _⟩ := nonlocalAssign_ok_inv s h s1 hok
      have hl : localHitB d s = false := by simp [localHitB, hfind]
      refine ⟨h2, ?_, fun _ => h3⟩
      rw [h3, hl]
      simp
  · intro hs s2 hok
    by_cases hm : s.host_map = []
    · simp [GetHosts, hm] at hok
    · rw [GetHosts, List.isEmpty_eq_false.mpr hm] at hok
      exact getHostsGo_counters ds s hs s2 hok
  · by_cases hm : s.host_map = []
    · rw [GetHost_empty d s hm, GetHost_empty d (setCounters s t l) hm]
    cases hfind : s.host_map.find? (fun x => x.key == d.hostname) with
    | some e =>
      by_cases he : e.hosts = []
      · rw [GetHost_empty_seq d s e hfind he,
          GetHost_empty_seq d (setCounters s t l) e hfind he]
        exact nonlocalAssign_obs_setCounters s t l
      · obtain ⟨h0, hget0, hstep0⟩ := GetHost_local_step d s e hfind he
        obtain ⟨h1, hget1, hstep1⟩ := GetHost_local_step d (setCounters s t l) e hfind he
        rw [hget0] at hget1
        injection hget1 with hh
        subst hh
        rw [hstep0, hstep1]
        rfl
    | none =>
      rw [GetHost_no_key d s hm hfind, GetHost_no_key d (setCounters s t l) hm hfind]
      exact nonlocalAssign_obs_setCounters s t l

/-- Concrete instance of claim C8: one local assignment for 10.0.0.2 in
`stateBC` yields total counter 1 and local counter 1. -/
theorem claim_C8_witness :
    GetHost locB stateBC = .ok (hostB, stateBC1) ∧
    (stateBC1.total_assignments = stateBC.total_assignments + 1 ∧
      (stateBC1.total_local_assignments = stateBC.total_local_assignments + 1 ↔
        localHitB locB stateBC = true) ∧
      (localHitB locB stateBC = false →
        stateBC1.total_local_assignments = stateBC.total_local_assignments)) :=
  ⟨rfl, (claim_C8_counters locB [] stateBC 0 0).1 hostB stateBC1 rfl⟩

end SimpleScheduler
